import Mathlib

/-!
Verification of the Cin7-to-Smartsheet upload pipeline
(`cin7_smartsheet_uploader_v5.py`): header reconciliation, column
mapping, numeric coercion, row filtering, and the batched
clear/upload protocol with retries and cooperative cancellation.

Numbers are modelled as exact decimal strings (sign, integer digits,
fraction digits), mirroring the strings the program feeds to
`pd.to_numeric` / `float`; machine floating point is idealised as
exact decimal arithmetic over ℚ.
-/

namespace Cin7

/-! ## String helpers (Python `str.lower`, `in`, `strip`) -/

/-- Lower-case a string character by character (Python `str.lower` on
ASCII data). -/
def lowerStr (s : String) : String := String.mk (s.toList.map Char.toLower)

/-- `isPrefixList p l`: the characters `p` start the list `l`. -/
def isPrefixList : List Char → List Char → Bool
  | [], _ => true
  | _ :: _, [] => false
  | a :: as, b :: bs => a == b && isPrefixList as bs

/-- Python `pat in s`: `pat` occurs contiguously inside `s`. -/
def containsSub (s pat : String) : Bool :=
  (List.range (s.toList.length + 1)).any (fun i => isPrefixList pat.toList (s.toList.drop i))

/-- Python whitespace characters recognised by `str.strip()` / `float`. -/
def isPyWs (c : Char) : Bool :=
  c == ' ' || c == '\t' || c == '\n' || c == '\r' || c == '\x0b' || c == '\x0c'

/-- Strip whitespace from both ends of a character list. -/
def trimWsChars (l : List Char) : List Char :=
  ((l.dropWhile isPyWs).reverse.dropWhile isPyWs).reverse

/-- Python `s.strip()`. -/
def stripStr (s : String) : String := String.mk (trimWsChars s.toList)

/-- Python `s.strip("_")`: drop underscores from both ends. -/
def stripUnderscoreEnds (s : String) : String :=
  String.mk (((s.toList.dropWhile (· == '_')).reverse.dropWhile (· == '_')).reverse)

/-! ## Exact decimal numbers

`Dec` is a decimal literal as the program's numeric strings carry it: a
sign, the integer-part digit characters and the fraction-part digit
characters, kept verbatim (no normalisation), so that rendering a parsed
number reproduces its digits exactly. -/

structure Dec where
  neg : Bool
  ip : List Char
  fp : List Char
deriving DecidableEq, Repr

/-- Parse an unsigned decimal: digits, optionally a dot and more digits,
nothing else; at least one digit in total (the grammar `float` and
`pd.to_numeric` accept for plain decimal strings). -/
def parseUnsigned (l : List Char) : Option (List Char × List Char) :=
  let ip := l.takeWhile Char.isDigit
  let r := l.dropWhile Char.isDigit
  if r = [] then (if ip.isEmpty then none else some (ip, []))
  else if r.head? = some '.' then
    let fp := r.tail.takeWhile Char.isDigit
    let r3 := r.tail.dropWhile Char.isDigit
    if r3.isEmpty && !(ip.isEmpty && fp.isEmpty) then some (ip, fp) else none
  else none

/-- Parse an optionally `-`-signed decimal from a character list. -/
def parseDecCore (l : List Char) : Option Dec :=
  if l.head? = some '-' then (parseUnsigned l.tail).map (fun p => ⟨true, p.1, p.2⟩)
  else (parseUnsigned l).map (fun p => ⟨false, p.1, p.2⟩)

/-- Python `float(s)` / `pd.to_numeric(s)` on a plain decimal string:
surrounding whitespace is ignored and a leading `+` is accepted.
(Exponent forms are outside the fragment the pipeline produces.) -/
def parseFloat (s : String) : Option Dec :=
  if (trimWsChars s.toList).head? = some '+' then
    (parseUnsigned (trimWsChars s.toList).tail).map (fun p => ⟨false, p.1, p.2⟩)
  else parseDecCore (trimWsChars s.toList)

/-- Numeric value of a digit character. -/
def digitVal (c : Char) : Nat := c.toNat - '0'.toNat

/-- Value of a digit string, most significant first. -/
def digitsToNat (l : List Char) : Nat := l.foldl (fun acc c => acc * 10 + digitVal c) 0

/-- Plain positional rendering of a `Dec`: sign, integer digits, and
`.` plus fraction digits when present. -/
def renderDecPlain (d : Dec) : String :=
  String.mk ((if d.neg then ['-'] else []) ++ d.ip ++ (if d.fp.isEmpty then [] else '.' :: d.fp))

/-- Does float64 `repr` format this value in scientific notation?  The
magnitude is `m / 10 ^ e` with `m = digits(ip ++ fp)` and
`e = |fp|`; Python switches to scientific notation for non-zero values
below `1e-4` or at and above `1e16`. -/
def inSciRegime (d : Dec) : Bool :=
  let m := digitsToNat (d.ip ++ d.fp)
  decide (m ≠ 0 ∧ (m * 10 ^ 4 < 10 ^ d.fp.length ∨ 10 ^ (16 + d.fp.length) ≤ m))

/-- An exponent rendered as Python does: at least two digits. -/
def expDigits (n : Nat) : String := if n < 10 then "0" ++ toString n else toString n

/-- Scientific-notation rendering, as float64 `repr` produces it:
leading significant digit, optional `.` and the remaining significant
digits (trailing zeros dropped), then `e±EE` (`0.00001 -> "1e-05"`,
`20000000000000000.0 -> "2e+16"`). -/
def renderSci (d : Dec) : String :=
  let digits := d.ip ++ d.fp
  let k := (digits.takeWhile (· == '0')).length
  match digits.drop k with
  | [] => "0"
  | d1 :: rest =>
    let restTrim := (rest.reverse.dropWhile (· == '0')).reverse
    let e10 : Int := (d.ip.length : Int) - 1 - k
    (if d.neg then "-" else "") ++ String.mk [d1] ++
      (if restTrim.isEmpty then "" else "." ++ String.mk restTrim) ++
      "e" ++ (if e10 < 0 then "-" else "+") ++ expDigits e10.natAbs

/-- Render a `Dec` back to the string form `str()` gives the value:
scientific notation in float64's scientific regime, plain positional
digits otherwise. -/
def renderDec (d : Dec) : String :=
  if inSciRegime d then renderSci d else renderDecPlain d

/-- `10 ^ n` as an integer. -/
def pow10 (n : Nat) : Int := ((10 : Nat) ^ n : Nat)

/-- Exact value of a `Dec` as a scaled integer: the pair `(m, e)` stands
for `m / 10 ^ e`, with `e` the number of fraction digits. -/
def decRep (d : Dec) : Int × Nat :=
  let m : Int := (digitsToNat d.ip * 10 ^ d.fp.length + digitsToNat d.fp : Nat)
  (if d.neg then -m else m, d.fp.length)

/-- `a - b` on scaled integers, then truncation toward zero, as
`(x - y).astype(int)` performs on finite values (`Int.tdiv` is exactly
truncation toward zero). -/
def subToInt (a b : Int × Nat) : Int :=
  (a.1 * pow10 b.2 - b.1 * pow10 a.2).tdiv (pow10 (a.2 + b.2))

/-! ## Cells and tables -/

/-- A cell holds a string, a number, or the float NaN — what a pandas
object/numeric column holds after the pipeline's passes (NaN arises when
pandas backfills a column while re-establishing an empty frame's
index). -/
inductive CellVal where
  | str : String → CellVal
  | num : Dec → CellVal
  | nan : CellVal
deriving DecidableEq, Repr

/-- Python `str(value)` on a cell (`str(float('nan'))` is `'nan'`). -/
def renderCell : CellVal → String
  | .str s => s
  | .num d => renderDec d
  | .nan => "nan"

/-- `pd.to_numeric(value, errors='coerce')` followed by `.fillna(0)`,
element-wise: a number passes through, a string parses or becomes 0.
The result is a scaled integer `(m, e)` standing for `m / 10 ^ e`. -/
def toNumericRep (v : CellVal) : Int × Nat :=
  match v with
  | .num d => decRep d
  | .str s => ((parseFloat s).map decRep).getD (0, 0)
  | .nan => (0, 0)

/-- A data frame: column labels in order, and rows of cells positionally
aligned with the labels. -/
structure DataFrame where
  cols : List String
  rows : List (List CellVal)
deriving DecidableEq, Repr

/-! ## Header reconciliation (`process_cin7_excel_data`, multi-level columns)

For each two-level column label the code runs:
```
if col[0] and col[1] and str(col[0]).strip() != str(col[1]).strip():
    new_columns.append(f"{col[0]}_{col[1]}".strip("_"))
else:
    new_columns.append(str(col[1] if col[1] else col[0]).strip())
```
-/

/-- Flatten one `(outer, inner)` column-label pair. -/
def flattenLabel (outer inner : String) : String :=
  if outer ≠ "" ∧ inner ≠ "" ∧ stripStr outer ≠ stripStr inner then
    stripUnderscoreEnds (outer ++ "_" ++ inner)
  else
    stripStr (if inner ≠ "" then inner else outer)

/-! ## Numeric cleaning (`clean_numeric_data`) -/

/-- The canonical quantity column names (`numeric_columns` in the code). -/
def canonicalNumericCols : List String :=
  ["SOH", "Incoming NOT paid", "Open Sales", "Grand Total", "Available"]

/-- Keyword fragments marking a column as numeric-semantic. -/
def numericKeywords : List String :=
  ["stock qty", "stock value", "qty", "total", "incoming", "sales"]

/-- A column is numeric-semantic when its name is one of the canonical
quantity names or its lower-cased name contains one of the keywords. -/
def isNumericSemantic (c : String) : Bool :=
  canonicalNumericCols.contains c
    || numericKeywords.any (fun k => containsSub (lowerStr c) k)

/-- A character the cleaning regexes keep: the code first removes
`[,$\s]` and then everything outside `[0-9.-]`, so together only digits,
`.` and `-` survive. -/
def keepNumChar (c : Char) : Bool := c.isDigit || c == '.' || c == '-'

/-- `Dec` for the literal `0` (what `fillna(0)` substitutes). -/
def zeroDec : Dec := ⟨false, ['0'], []⟩

/-- Clean one cell of a numeric-semantic column: `astype(str)`, strip all
characters outside `[0-9.-]`, turn an empty remainder into `"0"`, then
`pd.to_numeric(..., errors='coerce').fillna(0)`.  (The code's literal
replacements of `'nan'`/`'None'`/`'null'` act after the regexes, which
have already removed every letter, so only `''` can still match.) -/
def cleanCell (v : CellVal) : CellVal :=
  let l := (renderCell v).toList.filter keepNumChar
  let l2 := if l.isEmpty then ['0'] else l
  .num ((parseDecCore l2).getD zeroDec)

/-- A cell whose rendering is plain positional notation: a number
outside float64's scientific regime, or any non-number. -/
def plainCell (v : CellVal) : Bool :=
  match v with
  | .num d => !(inSciRegime d)
  | _ => true

/-- Clean one row against the column labels: numeric-semantic columns are
cleaned cell by cell, the others are untouched. -/
def cleanRow (cols : List String) (r : List CellVal) : List CellVal :=
  List.zipWith (fun c v => if isNumericSemantic c then cleanCell v else v) cols r

/-- `clean_numeric_data`: clean every numeric-semantic column of the
frame, column by column, leaving the rest alone. -/
def clean_numeric_data (df : DataFrame) : DataFrame :=
  { cols := df.cols, rows := df.rows.map (cleanRow df.cols) }

/-! ## Column mapping (`apply_cin7_column_mapping`) -/

/-- `self.cin7_column_mapping`: the canonical targets, in order, each with
its lower-case search patterns. -/
def cin7_column_mapping : List (String × List String) :=
  [("ProductCode", ["productcode", "product_code", "product code"]),
   ("Product", ["product", "description", "product description"]),
   ("Branch", ["branch", "location", "warehouse"]),
   ("SOH", ["soh", "4 - soh", "stock on hand", "soh_stock qty"]),
   ("Incoming NOT paid",
     ["incoming", "5 -", "open po", "incoming not paid", "incoming_not_paid_stock qty"]),
   ("Open Sales", ["open sales", "6 -", "allocated", "open_sales_stock qty"]),
   ("Grand Total", ["grand total", "7 -", "total", "grand_total_stock qty"])]

/-- The canonical target names in schema order. -/
def targets : List String := cin7_column_mapping.map Prod.fst

/-- Does a source column label match one of a target's patterns?
(`any(pattern in df_col_lower for pattern in search_patterns)`). -/
def colMatches (pats : List String) (c : String) : Bool :=
  pats.any (fun p => containsSub (lowerStr c) p)

/-- The first source column, in original column order, matching one of
the patterns (the code's inner `for df_col in df.columns` with `break`). -/
def firstMatch (cols : List String) (pats : List String) : Option String :=
  cols.find? (colMatches pats)

/-- The four quantity targets that default to `"0"`. -/
def quantityCols : List String := ["SOH", "Incoming NOT paid", "Open Sales", "Grand Total"]

/-- Default value for a target no source column matched. -/
def defaultFor (t : String) : String :=
  if quantityCols.contains t then "0" else "N/A"

/-- The cell of row `r` under source column `src` (`df[src]` for this row). -/
def colValue (cols : List String) (r : List CellVal) (src : String) : CellVal :=
  r.getD (cols.indexOf src) (.str "")

/-- The canonical targets strictly before `t` in schema order (target
names are distinct). -/
def priorTargets (t : String) : List (String × List String) :=
  cin7_column_mapping.takeWhile (fun tp => tp.1 ≠ t)

/-- Did some canonical target before `t` (in schema order) match a
source column?  Only then has the mapped frame's row index been
established by the time `t`'s default is assigned, so only then does
the scalar default broadcast to the rows. -/
def anyPriorMatch (cols : List String) (t : String) : Bool :=
  (priorTargets t).any (fun tp => (firstMatch cols tp.2).isSome)

/-- Does any canonical target match a source column?  If not, every
assignment into `mapped_df` is a scalar written to an empty frame and
the mapped frame keeps zero rows. -/
def hasAnyMatch (cols : List String) : Bool :=
  cin7_column_mapping.any (fun tp => (firstMatch cols tp.2).isSome)

/-- Build one mapped row: for each target in schema order, copy the
first matching source column's cell; an unmatched target carries its
default only if an earlier target already matched (the scalar broadcast
onto the established index) and carries NaN otherwise (the default was
written to the still-empty frame and backfilled with NaN when the first
matched column re-established the index). -/
def mapRow (cols : List String) (r : List CellVal) : List CellVal :=
  cin7_column_mapping.map (fun tp =>
    match firstMatch cols tp.2 with
    | some src => colValue cols r src
    | none => if anyPriorMatch cols tp.1 then .str (defaultFor tp.1) else .nan)

/-- The derived `Available` cell of a mapped row:
`(to_numeric(SOH).fillna(0) - to_numeric(Open Sales).fillna(0)).astype(int).astype(str)`. -/
def availableCell (m : List CellVal) : CellVal :=
  .str (toString (subToInt
    (toNumericRep (m.getD (targets.indexOf "SOH") (.str "")))
    (toNumericRep (m.getD (targets.indexOf "Open Sales") (.str "")))))

/-- `apply_cin7_column_mapping`: map every target column and append the
computed `Available` column.  (The code's guard that `SOH` and
`Open Sales` exist in the mapped frame is always true: every target
column is created, matched or not.)  With no matching target at all,
every assignment was a scalar into an empty frame and the mapped frame
has all its columns but zero rows. -/
def apply_cin7_column_mapping (df : DataFrame) : DataFrame :=
  { cols := targets ++ ["Available"],
    rows := if hasAnyMatch df.cols then
        df.rows.map (fun r => mapRow df.cols r ++ [availableCell (mapRow df.cols r)])
      else [] }

/-! ## Row filtering (`process_cin7_excel_data`, non-verbatim branch) -/

/-- The `ProductCode` search patterns (`self.cin7_column_mapping['ProductCode']`). -/
def pcPatterns : List String := (cin7_column_mapping.lookup "ProductCode").getD []

/-- The footer markers of the filter's regex `'Grand Total|Total|ProductCode'`. -/
def footerMarkers : List String := ["Grand Total", "Total", "ProductCode"]

/-- Case-insensitive containment (`str.contains(..., case=False)` with a
literal alternative). -/
def containsCI (v pat : String) : Bool := containsSub (lowerStr v) (lowerStr pat)

/-- Keep a row: the primary-key cell is a string that is non-empty, not
`"nan"`, and contains no footer marker.  A non-string cell (a number,
or the float NaN) compares unequal to both strings and gives
`str.contains` NA, and `na=False` keeps the row. -/
def keepRow (cols : List String) (pc : String) (r : List CellVal) : Bool :=
  match colValue cols r pc with
  | .str s => s ≠ "" && s ≠ "nan" && !(footerMarkers.any (fun m => containsCI s m))
  | .num _ => true
  | .nan => true

/-- The invalid-row filter: locate the primary-key column by the
`ProductCode` substring rule; if none is found, do nothing. -/
def filterInvalidRows (df : DataFrame) : DataFrame :=
  match firstMatch df.cols pcPatterns with
  | none => df
  | some pc => { df with rows := df.rows.filter (keepRow df.cols pc) }

/-! ## Batch slicing (clear and upload loops)

Both loops compute `total_batches = (n + size - 1) // size` and slice
`items[k*size : min((k+1)*size, n)]`. -/

/-- Slice a list into the code's consecutive batches of size `size`. -/
def sliceList (l : List Nat) (size : Nat) : List (List Nat) :=
  (List.range ((l.length + size - 1) / size)).map (fun k =>
    (l.drop (k * size)).take (min ((k + 1) * size) l.length - k * size))

/-- `clear_smartsheet_data_enhanced`: delete batches of at most 400 ids. -/
def clearBatches (rowIds : List Nat) : List (List Nat) := sliceList rowIds 400

/-- Slice data-frame rows into upload batches of `batchSize` rows
(`df.iloc[start_idx:end_idx]`). -/
def sliceRows (rows : List (List CellVal)) (batchSize : Nat) : List (List (List CellVal)) :=
  (List.range ((rows.length + batchSize - 1) / batchSize)).map (fun k =>
    (rows.drop (k * batchSize)).take (min ((k + 1) * batchSize) rows.length - k * batchSize))

/-! ## Clearing with retries (`clear_smartsheet_data_enhanced`)

The remote `DeleteRows` collaborator is an oracle `delOk batch attempt`;
sleeps are recorded as a trace of delay values. -/

/-- Result of a phase: completed normally, or a raise propagated out. -/
inductive DelRes where
  | ok : DelRes
  | raised : DelRes
deriving DecidableEq, Repr

/-- The per-batch delete retry loop
(`for attempt in range(max_retries)` with `raise` on the last attempt and
`time.sleep(retry_delay)` before each further attempt).  Arguments: the
attempt oracle, the configured `retry_delay`, the current attempt index
and the remaining attempts.  Returns (result, attempts made, delays
slept).  With a zero budget the loop body never runs and the code falls
through without raising. -/
def deleteWithRetry (delOk : Nat → Bool) (delay : Nat) : Nat → Nat → DelRes × List Nat × List Nat
  | _, 0 => (.ok, [], [])
  | a, f + 1 =>
    if delOk a then (.ok, [a], [])
    else if f == 0 then (.raised, [a], [])
    else
      let r := deleteWithRetry delOk delay (a + 1) f
      (r.1, a :: r.2.1, delay :: r.2.2)

/-- Collaborators of the clearing loop: the delete oracle per (batch,
attempt) and the cancellation flag as observed at the checkpoint before
each batch. -/
structure ClearEnv where
  delOk : Nat → Nat → Bool
  cancel : Nat → Bool

/-- Trace of one clearing run. -/
structure ClearOut where
  res : DelRes
  calls : List (Nat × Nat)
  delays : List Nat
deriving DecidableEq, Repr

/-- The clearing batch loop: check the cancellation flag before each
batch (an early `return`, not an error), delete the batch with retries,
and propagate a raise, which aborts every later batch.  (The fixed
inter-batch rate-limit sleep is not part of the retry-delay trace.) -/
def clearLoop (env : ClearEnv) (retries delay : Nat) : Nat → List (List Nat) → ClearOut
  | _, [] => ⟨.ok, [], []⟩
  | b, _ :: rest =>
    if env.cancel b then ⟨.ok, [], []⟩
    else
      let r := deleteWithRetry (env.delOk b) delay 0 retries
      match r.1 with
      | .raised => ⟨.raised, r.2.1.map (fun a => (b, a)), r.2.2⟩
      | .ok =>
        let k := clearLoop env retries delay (b + 1) rest
        ⟨k.res, r.2.1.map (fun a => (b, a)) ++ k.calls, r.2.2 ++ k.delays⟩

/-! ## Upload (`upload_data_enhanced` and the outcome in `start_upload_threaded`) -/

/-- Collaborators of the upload loop: the `AddRows` oracle per (batch,
attempt) and the cancellation flag as observed at the batch checkpoints;
`cancel batches.length` is the read after the loop that classifies the
outcome. -/
structure UploadEnv where
  addOk : Nat → Nat → Bool
  cancel : Nat → Bool

/-- Result of one batch's retry loop: added, retries exhausted (the
`raise` caught by the outer handler), or cancellation observed inside
the loop. -/
inductive AttRes where
  | ok : AttRes
  | failed : AttRes
  | cancelled : AttRes
deriving DecidableEq, Repr

/-- The upload retry loop for batch `b`: before each attempt the
cancellation flag is read; a failure on the last attempt re-raises (the
outer handler turns it into a `False` return); earlier failures sleep
and continue.  Returns the result and the attempts made. -/
def tryBatch (env : UploadEnv) (b : Nat) : Nat → Nat → AttRes × List Nat
  | _, 0 => (.failed, [])
  | a, f + 1 =>
    if env.cancel b then (.cancelled, [])
    else if env.addOk b a then (.ok, [a])
    else if f == 0 then (.failed, [a])
    else
      let r := tryBatch env b (a + 1) f
      (r.1, a :: r.2)

/-- Is this cell sent? `col_name in column_map and str(value).strip()
and str(value) != 'nan'`. -/
def cellQualifies (colmap : List String) (c : String) (v : CellVal) : Bool :=
  colmap.contains c && stripStr (renderCell v) ≠ "" && renderCell v ≠ "nan"

/-- The value a sent cell carries: numeric-semantic columns go through
`float(str(value).strip())` (as a number on success, the stripped string
on failure), other columns as the stripped string.  The code's
integer-versus-float split keeps the same numeric value, so it is not
distinguished here. -/
def prepCell (c : String) (v : CellVal) : CellVal :=
  if isNumericSemantic c then
    match parseFloat (stripStr (renderCell v)) with
    | some d => .num d
    | none => .str (stripStr (renderCell v))
  else .str (stripStr (renderCell v))

/-- Build the cells of one remote row from a table row
(`for col_name, value in row.items()` with the qualification test). -/
def prepRow (colmap : List String) (cols : List String) (r : List CellVal) :
    List (String × CellVal) :=
  (cols.zip r).filterMap (fun cv =>
    if cellQualifies colmap cv.1 cv.2 then some (cv.1, prepCell cv.1 cv.2) else none)

/-- `rows_to_add` for one batch: a table row contributes a remote row
only when it produced at least one cell (`if new_row.cells`). -/
def prepBatch (colmap : List String) (cols : List String)
    (batch : List (List CellVal)) : List (List (String × CellVal)) :=
  batch.filterMap (fun r =>
    let cells := prepRow colmap cols r
    if cells.isEmpty then none else some cells)

/-- State returned by the upload loop: the boolean the function returns,
the rows now present remotely (appended by each successful `AddRows`),
every `AddRows` call made as (batch, attempt), and the cumulative
`uploaded_rows` counter. -/
structure UploadOut where
  success : Bool
  remote : List (List (String × CellVal))
  calls : List (Nat × Nat)
  uploaded : Nat
deriving DecidableEq, Repr

/-- The upload batch loop from `upload_data_enhanced`: check the
cancellation flag before each batch, prepare `rows_to_add`, submit with
retries; a failed or cancelled batch returns `False` immediately and no
later batch is touched. -/
def runUpload (env : UploadEnv) (retries : Nat) (colmap cols : List String) :
    Nat → List (List (List CellVal)) → UploadOut
  | _, [] => ⟨true, [], [], 0⟩
  | b, batch :: rest =>
    if env.cancel b then ⟨false, [], [], 0⟩
    else
      let rowsToAdd := prepBatch colmap cols batch
      let t := tryBatch env b 0 retries
      match t.1 with
      | .ok =>
        let k := runUpload env retries colmap cols (b + 1) rest
        ⟨k.success, rowsToAdd ++ k.remote, t.2.map (fun a => (b, a)) ++ k.calls,
          rowsToAdd.length + k.uploaded⟩
      | .failed => ⟨false, [], t.2.map (fun a => (b, a)), 0⟩
      | .cancelled => ⟨false, [], t.2.map (fun a => (b, a)), 0⟩

/-- The final outcome of the upload process. -/
inductive Outcome where
  | success : Outcome
  | cancelled : Outcome
  | failure : Outcome
deriving DecidableEq, Repr

/-- The outcome classification of `start_upload_threaded`:
`if success and not self.upload_cancelled: ... elif self.upload_cancelled:
cancelled ... else: failed`, with the flag read after the loop. -/
def runOutcome (env : UploadEnv) (retries : Nat) (colmap cols : List String)
    (batches : List (List (List CellVal))) : Outcome :=
  let o := runUpload env retries colmap cols 0 batches
  let fin := env.cancel batches.length
  if o.success && !fin then .success else if fin then .cancelled else .failure

/-- `upload_data_enhanced` on a processed frame: slice the rows into
batches of `batchSize` and run the loop. -/
def upload_data_enhanced (env : UploadEnv) (retries batchSize : Nat)
    (colmap : List String) (df : DataFrame) : UploadOut :=
  runUpload env retries colmap df.cols 0 (sliceRows df.rows batchSize)

/-! ## Concrete tables and environments used by the theorems -/

/-- The table of the claim's first example: `SOH = "1,200"`,
`Open Sales = "50"`. -/
def dfComma : DataFrame := ⟨["SOH", "Open Sales"], [[.str "1,200", .str "50"]]⟩

/-- The table of the claim's second example: `SOH = "abc"`,
`Open Sales = "5"`. -/
def dfAbc : DataFrame := ⟨["SOH", "Open Sales"], [[.str "abc", .str "5"]]⟩

/-- The removal condition of the claim as amended: the primary-key cell
is empty, the literal `"nan"`, or contains one of the footer markers as
a case-insensitive substring. -/
def specRemove (cols : List String) (pc : String) (r : List CellVal) : Bool :=
  match colValue cols r pc with
  | .str s => s == "" || s == "nan" || footerMarkers.any (fun m => containsCI s m)
  | .num _ => false
  | .nan => false

/-- A table whose only column matches the `SOH` target: the targets
before `SOH` default under an empty index and are NaN-backfilled. -/
def dfSOHOnly : DataFrame := ⟨["SOH"], [[.str "7"]]⟩

/-- A one-row table none of whose columns matches any canonical
target: the mapped frame keeps zero rows. -/
def dfNoMatch : DataFrame := ⟨["Zeug"], [[.str "w"]]⟩

/-- The table with the single primary-key value `"Subtotal"`. -/
def dfSubtotal : DataFrame := ⟨["ProductCode"], [[.str "Subtotal"]]⟩

/-- The table the C4 witness filters: one valid row, one empty key, one
footer row. -/
def dfFilterW : DataFrame :=
  ⟨["ProductCode"], [[.str "A-1"], [.str ""], [.str "Grand Total"]]⟩

/-- An environment whose first batch succeeds and whose second batch
always fails, with no cancellation. -/
def envC6 : UploadEnv := ⟨fun b _ => decide (b = 0), fun _ => false⟩

/-- An environment whose batches always succeed but whose cancellation
flag is set from batch 1 on. -/
def envC7 : UploadEnv := ⟨fun _ _ => true, fun b => decide (1 ≤ b)⟩

/-- A one-row batch whose row uploads one cell. -/
def batchA : List (List CellVal) := [[CellVal.str "A"]]

/-- A clearing environment: batch 0 deletes on the first attempt, batch
1 always fails, no cancellation. -/
def envC8 : ClearEnv := ⟨fun b _ => decide (b = 0), fun _ => false⟩

/-- The all-success, never-cancelled upload environment. -/
def envAllOk : UploadEnv := ⟨fun _ _ => true, fun _ => false⟩

/-- A two-row frame whose second row's only cell is `"nan"` and is
therefore skipped. -/
def dfSkip : DataFrame := ⟨["ProductCode"], [[.str "A"], [.str "nan"]]⟩

/-! ## General list lemmas -/

/-- `find?` finds the first match: the list splits at the found element
and nothing before it matches. -/
theorem find?_eq_some_split {α : Type} {p : α → Bool} {l : List α} {a : α}
    (h : l.find? p = some a) :
    ∃ l1 l2, l = l1 ++ a :: l2 ∧ p a = true ∧ ∀ x ∈ l1, p x = false := by
  induction l with
  | nil => simp [List.find?] at h
  | cons b t ih =>
    by_cases hb : p b
    · rw [List.find?_cons_of_pos _ hb] at h
      cases h
      exact ⟨[], t, rfl, hb, by simp⟩
    · rw [List.find?_cons_of_neg _ hb] at h
      obtain ⟨l1, l2, rfl, hpa, hall⟩ := ih h
      refine ⟨b :: l1, l2, rfl, hpa, ?_⟩
      intro x hx
      rcases List.mem_cons.mp hx with rfl | hx
      · simpa using hb
      · exact hall x hx

/-! ## C2 — header reconciliation -/

/-- C2 counterexample: for the pair `("a", "b_")` both components are
non-empty and distinct after trimming, yet the code's flat label is
`"a_b"`, not `outer_inner = "a_b_"`: the combined label is stripped of
leading/trailing underscores. -/
theorem header_flatten_counterexample :
    flattenLabel "a" "b_" = "a_b" ∧ ("a_b" : String) ≠ "a_b_" ∧
    ("a" : String) ≠ "" ∧ ("b_" : String) ≠ "" ∧ stripStr "a" ≠ stripStr "b_" := by
  decide

/-- C2 (amended): for a pair (outer, inner) of column labels, when both
are non-empty and distinct after trimming the flat label is
`outer_inner` with leading and trailing underscores stripped; otherwise
it is whichever of inner/outer is non-empty (inner preferred), trimmed. -/
theorem header_flatten_amended (outer inner : String) :
    (outer ≠ "" → inner ≠ "" → stripStr outer ≠ stripStr inner →
      flattenLabel outer inner = stripUnderscoreEnds (outer ++ "_" ++ inner)) ∧
    (inner ≠ "" → (outer = "" ∨ stripStr outer = stripStr inner) →
      flattenLabel outer inner = stripStr inner) ∧
    (inner = "" → flattenLabel outer inner = stripStr outer) := by
  refine ⟨?_, ?_, ?_⟩
  · intro h1 h2 h3
    simp [flattenLabel, h1, h2, h3]
  · intro h2 hd
    rcases hd with h | h
    · simp [flattenLabel, h, h2]
    · simp [flattenLabel, h, h2]
  · intro h2
    simp [flattenLabel, h2]

/-- C2 witness: the example pair `("4", "SOH")` flattens to `"4_SOH"`. -/
theorem header_flatten_witness :
    (flattenLabel "4" "SOH" = stripUnderscoreEnds ("4" ++ "_" ++ "SOH")) ∧
    flattenLabel "4" "SOH" = "4_SOH" ∧ flattenLabel "" "SOH" = "SOH" ∧
    flattenLabel "SOH" "SOH" = "SOH" :=
  ⟨(header_flatten_amended "4" "SOH").1 (by decide) (by decide) (by decide),
    by decide, by decide, by decide⟩

/-! ## C1 — the derived Available column -/

/-- Length of a mapped row: one cell per canonical target. -/
theorem mapRow_length (cols : List String) (r : List CellVal) :
    (mapRow cols r).length = targets.length := by
  simp [mapRow, targets]

/-- C1 (amended): in every mapped table, each row's `Available` cell is
the string of `SOH - Open Sales`, both operands coerced by
`pd.to_numeric(..., errors='coerce').fillna(0)` and the difference
truncated to an integer.  `to_numeric` does not strip thousands
separators, so a value such as `"1,200"` fails coercion and counts as 0
(separators are only stripped by the earlier cleaning pass). -/
theorem available_column_amended (df : DataFrame) (m : List CellVal)
    (hm : m ∈ (apply_cin7_column_mapping df).rows) :
    m.getD targets.length (.str "") =
      .str (toString (subToInt
        (toNumericRep (m.getD (targets.indexOf "SOH") (.str "")))
        (toNumericRep (m.getD (targets.indexOf "Open Sales") (.str ""))))) := by
  have hrows : (apply_cin7_column_mapping df).rows =
      (if hasAnyMatch df.cols then
        df.rows.map (fun r => mapRow df.cols r ++ [availableCell (mapRow df.cols r)])
      else []) := rfl
  rw [hrows] at hm
  by_cases hmatch : hasAnyMatch df.cols = true
  swap
  · rw [if_neg hmatch] at hm
    simp at hm
  rw [if_pos hmatch] at hm
  obtain ⟨r, hr, rfl⟩ := List.mem_map.mp hm
  have hlen : (mapRow df.cols r).length = targets.length := mapRow_length df.cols r
  have hav : (mapRow df.cols r ++ [availableCell (mapRow df.cols r)]).getD
      targets.length (.str "") = availableCell (mapRow df.cols r) := by
    rw [List.getD_append_right (mapRow df.cols r) [availableCell (mapRow df.cols r)]
      (CellVal.str "") targets.length (le_of_eq hlen)]
    simp [hlen]
  have hsoh : (mapRow df.cols r ++ [availableCell (mapRow df.cols r)]).getD
      (targets.indexOf "SOH") (.str "") =
      (mapRow df.cols r).getD (targets.indexOf "SOH") (.str "") := by
    apply List.getD_append
    rw [hlen]
    decide
  have hos : (mapRow df.cols r ++ [availableCell (mapRow df.cols r)]).getD
      (targets.indexOf "Open Sales") (.str "") =
      (mapRow df.cols r).getD (targets.indexOf "Open Sales") (.str "") := by
    apply List.getD_append
    rw [hlen]
    decide
  rw [hav, hsoh, hos]
  rfl

/-- C1 counterexample: with `SOH = "1,200"` and `Open Sales = "50"` the
mapped row's `Available` cell is `"-50"`, not `"1150"` as the claim's
example states: `pd.to_numeric` rejects the comma, so the operand
counts as 0. -/
theorem available_comma_counterexample :
    ((apply_cin7_column_mapping dfComma).rows.getD 0 []).getD targets.length (.str "") =
      .str "-50" ∧ CellVal.str "-50" ≠ .str "1150" := by
  decide

/-- C1 witness: on the `SOH = "abc"`, `Open Sales = "5"` example the
amended rule gives `Available = "-5"`, as the claim's second example
states. -/
theorem available_column_witness :
    (((apply_cin7_column_mapping dfAbc).rows.getD 0 []).getD targets.length (.str "") =
      .str (toString (subToInt
        (toNumericRep (((apply_cin7_column_mapping dfAbc).rows.getD 0 []).getD
          (targets.indexOf "SOH") (.str "")))
        (toNumericRep (((apply_cin7_column_mapping dfAbc).rows.getD 0 []).getD
          (targets.indexOf "Open Sales") (.str "")))))) ∧
    ((apply_cin7_column_mapping dfAbc).rows.getD 0 []).getD targets.length (.str "") =
      .str "-5" :=
  ⟨available_column_amended dfAbc _ (by decide), by decide⟩

/-! ## C3 — column mapping selection -/

/-- The cell a mapped row holds for target `t`: the first matching
source column's cell; otherwise the default when an earlier target
matched, and NaN when none did. -/
theorem mapRow_getD (cols : List String) (r : List CellVal) (t : String)
    (pats : List String) (h : (t, pats) ∈ cin7_column_mapping) :
    (mapRow cols r).getD (targets.indexOf t) (.str "") =
      (match firstMatch cols pats with
       | some src => colValue cols r src
       | none => if anyPriorMatch cols t then .str (defaultFor t) else .nan) := by
  simp only [cin7_column_mapping, List.mem_cons, List.not_mem_nil, or_false,
    Prod.mk.injEq] at h
  rcases h with ⟨rfl, rfl⟩ | ⟨rfl, rfl⟩ | ⟨rfl, rfl⟩ | ⟨rfl, rfl⟩ | ⟨rfl, rfl⟩ |
    ⟨rfl, rfl⟩ | ⟨rfl, rfl⟩ <;> rfl

/-- C3 (amended): for every table and every canonical target, the
mapper picks the first source column (in original order) whose
lower-cased label contains one of the target's patterns.  An unmatched
target's cell is the default (`"0"` for the four quantity columns,
`"N/A"` otherwise) only when some earlier target in schema order
matched a source column; unmatched targets before the first match are
NaN (their scalar default was written to the still-empty frame and
backfilled when the first matched column established the row index);
and when no target matches at all, the mapped frame has zero rows. -/
theorem column_mapper_amended (df : DataFrame) (t : String) (pats : List String)
    (h : (t, pats) ∈ cin7_column_mapping) (r : List CellVal) :
    (hasAnyMatch df.cols = false → (apply_cin7_column_mapping df).rows = []) ∧
    (hasAnyMatch df.cols = true →
      (apply_cin7_column_mapping df).rows =
        df.rows.map (fun r => mapRow df.cols r ++ [availableCell (mapRow df.cols r)])) ∧
    (∀ src, firstMatch df.cols pats = some src →
      (∃ pre post, df.cols = pre ++ src :: post ∧ colMatches pats src = true ∧
        ∀ c ∈ pre, colMatches pats c = false) ∧
      (mapRow df.cols r).getD (targets.indexOf t) (.str "") = colValue df.cols r src) ∧
    (firstMatch df.cols pats = none →
      (∀ c ∈ df.cols, colMatches pats c = false) ∧
      (anyPriorMatch df.cols t = true →
        (mapRow df.cols r).getD (targets.indexOf t) (.str "") = .str (defaultFor t)) ∧
      (anyPriorMatch df.cols t = false →
        (mapRow df.cols r).getD (targets.indexOf t) (.str "") = .nan)) := by
  refine ⟨?_, ?_, ?_, ?_⟩
  · intro hno
    simp [apply_cin7_column_mapping, hno]
  · intro hyes
    simp [apply_cin7_column_mapping, hyes]
  · intro src hsrc
    refine ⟨find?_eq_some_split hsrc, ?_⟩
    rw [mapRow_getD df.cols r t pats h]
    simp only [firstMatch] at hsrc
    simp [firstMatch, hsrc]
  · intro hnone
    refine ⟨?_, ?_, ?_⟩
    · intro c hc
      have := List.find?_eq_none.mp hnone c hc
      simpa using this
    · intro hp
      rw [mapRow_getD df.cols r t pats h]
      simp only [firstMatch] at hnone
      simp [firstMatch, hnone, hp]
    · intro hp
      rw [mapRow_getD df.cols r t pats h]
      simp only [firstMatch] at hnone
      simp [firstMatch, hnone, hp]

/-- C3 counterexample: in a table whose only column matches `SOH`, the
unmatched `ProductCode` target (which precedes the first match in
schema order) holds NaN, not the claimed default `"N/A"`; and in a
one-row table with no matching column at all, the mapped frame has
zero rows instead of a defaulted row. -/
theorem column_mapper_counterexample :
    ((apply_cin7_column_mapping dfSOHOnly).rows.getD 0 []).getD
      (targets.indexOf "ProductCode") (.str "") = .nan ∧
    CellVal.nan ≠ .str "N/A" ∧
    (apply_cin7_column_mapping dfNoMatch).rows = [] ∧
    dfNoMatch.rows.length = 1 := by
  decide

/-- C3 witness: `Branch` maps to the column `"Warehouse X"` by first
match; in `dfSOHOnly`, the unmatched `Grand Total` target (after the
matched `SOH`) gets its default `"0"`, while the unmatched
`ProductCode` target (before it) is NaN. -/
theorem column_mapper_witness :
    ((mapRow ["Warehouse X"] [CellVal.str "W1"]).getD (targets.indexOf "Branch") (.str "")
      = colValue ["Warehouse X"] [CellVal.str "W1"] "Warehouse X") ∧
    ((mapRow ["SOH"] [CellVal.str "7"]).getD (targets.indexOf "Grand Total") (.str "")
      = .str (defaultFor "Grand Total")) ∧
    ((mapRow ["SOH"] [CellVal.str "7"]).getD (targets.indexOf "ProductCode") (.str "")
      = .nan) :=
  ⟨((column_mapper_amended ⟨["Warehouse X"], [[.str "W1"]]⟩ "Branch"
      ["branch", "location", "warehouse"] (by decide) [.str "W1"]).2.2.1
      "Warehouse X" (by decide)).2,
   (((column_mapper_amended ⟨["SOH"], [[.str "7"]]⟩ "Grand Total"
      ["grand total", "7 -", "total", "grand_total_stock qty"] (by decide) [.str "7"]).2.2.2
      (by decide)).2.1 (by decide)),
   (((column_mapper_amended ⟨["SOH"], [[.str "7"]]⟩ "ProductCode"
      ["productcode", "product_code", "product code"] (by decide) [.str "7"]).2.2.2
      (by decide)).2.2 (by decide))⟩

/-! ## C4 — the invalid-row filter -/

/-- A kept row is exactly a row the amended condition does not remove. -/
theorem keepRow_eq_not_specRemove (cols : List String) (pc : String) (r : List CellVal) :
    keepRow cols pc r = !(specRemove cols pc r) := by
  unfold keepRow specRemove
  cases colValue cols r pc with
  | str s =>
    by_cases h1 : s = "" <;> by_cases h2 : s = "nan" <;>
      simp [h1, h2]
  | num d => rfl
  | nan => rfl

/-- C4 counterexample: the filter drops the row whose primary-key cell is
`"Subtotal"`, although that value is non-empty, is not `"nan"`, and
equals none of the footer markers case-insensitively: the code tests
substring containment (`str.contains`), not a match against the
markers. -/
theorem row_filter_counterexample :
    (filterInvalidRows dfSubtotal).rows = [] ∧
    ("Subtotal" : String) ≠ "" ∧ ("Subtotal" : String) ≠ "nan" ∧
    (∀ m ∈ footerMarkers, lowerStr "Subtotal" ≠ lowerStr m) := by
  decide

/-- C4 (amended): with a primary-key column located by the `ProductCode`
substring rule, the filter removes exactly the rows whose primary-key
cell is empty, `"nan"`, or contains a footer marker as a
case-insensitive substring, keeping the remaining rows in their relative
order; with no primary-key column it is a no-op. -/
theorem row_filter_amended (df : DataFrame) :
    (∀ pc, firstMatch df.cols pcPatterns = some pc →
      (filterInvalidRows df).rows = df.rows.filter (fun r => !(specRemove df.cols pc r)) ∧
      List.Sublist (filterInvalidRows df).rows df.rows) ∧
    (firstMatch df.cols pcPatterns = none → filterInvalidRows df = df) := by
  constructor
  · intro pc hpc
    have hrows : (filterInvalidRows df).rows = df.rows.filter (keepRow df.cols pc) := by
      unfold filterInvalidRows
      rw [hpc]
    constructor
    · rw [hrows]
      apply List.filter_congr
      intro r _
      exact keepRow_eq_not_specRemove df.cols pc r
    · rw [hrows]
      exact List.filter_sublist df.rows
  · intro hnone
    unfold filterInvalidRows
    rw [hnone]

/-- C4 witness: on a concrete table the filter keeps exactly the valid
row and drops the empty and footer rows. -/
theorem row_filter_witness :
    ((filterInvalidRows dfFilterW).rows =
      dfFilterW.rows.filter (fun r => !(specRemove dfFilterW.cols "ProductCode" r))) ∧
    (filterInvalidRows dfFilterW).rows = [[.str "A-1"]] :=
  ⟨((row_filter_amended dfFilterW).1 "ProductCode" (by decide)).1, by decide⟩

/-! ## C5 — clearing batches -/

/-- Peeling one batch off the slices of a non-empty list. -/
theorem sliceList_cons (l : List Nat) (hl : l ≠ []) :
    sliceList l 400 = l.take 400 :: sliceList (l.drop 400) 400 := by
  have hl1 : 1 ≤ l.length := List.length_pos.mpr hl
  have hdrop : (l.drop 400).length = l.length - 400 := List.length_drop 400 l
  have htb : (l.length + 400 - 1) / 400 = ((l.drop 400).length + 400 - 1) / 400 + 1 := by
    rw [hdrop]; omega
  unfold sliceList
  rw [htb, List.range_succ_eq_map, List.map_cons, List.map_map]
  refine List.cons_eq_cons.mpr ⟨?_, ?_⟩
  · simp only [Nat.zero_mul, List.drop_zero, Nat.sub_zero, Nat.zero_add, Nat.one_mul]
    refine List.take_eq_take.mpr ?_
    rw [Nat.min_assoc, Nat.min_self]
  · apply List.map_congr_left
    intro k _
    simp only [Function.comp_apply]
    rw [List.drop_drop, hdrop]
    have ht : (Nat.succ k + 1) * 400 ⊓ l.length - Nat.succ k * 400
        = (k + 1) * 400 ⊓ (l.length - 400) - k * 400 := by omega
    have hd : Nat.succ k * 400 = 400 + k * 400 := by omega
    rw [ht, hd]

/-- The slices of a list of ids concatenate back to the whole list: every
id is deleted, in order. -/
theorem sliceList400_flatten (l : List Nat) : (sliceList l 400).flatten = l := by
  suffices H : ∀ n (l : List Nat), l.length ≤ n → (sliceList l 400).flatten = l by
    exact H l.length l le_rfl
  intro n
  induction n with
  | zero =>
    intro l hl
    have : l = [] := List.eq_nil_of_length_eq_zero (Nat.le_zero.mp hl)
    subst this
    rfl
  | succ n ih =>
    intro l hl
    by_cases hnil : l = []
    · subst hnil; rfl
    · rw [sliceList_cons l hnil, List.flatten_cons]
      have hlen : (l.drop 400).length ≤ n := by
        have h1 := List.length_drop 400 l
        have h2 : 1 ≤ l.length := List.length_pos.mpr hnil
        omega
      rw [ih (l.drop 400) hlen, List.take_append_drop]

/-- C5: for a non-empty id list of length N, clearing partitions the ids
into exactly `⌈N / 400⌉` delete batches of at most 400 ids each, and the
batches together carry every id, in order. -/
theorem clear_batching (ids : List Nat) (_h : ids ≠ []) :
    (clearBatches ids).length = (ids.length + 399) / 400 ∧
    (∀ b ∈ clearBatches ids, b.length ≤ 400) ∧
    (clearBatches ids).flatten = ids := by
  refine ⟨?_, ?_, sliceList400_flatten ids⟩
  · simp [clearBatches, sliceList]
  · intro b hb
    simp only [clearBatches, sliceList, List.mem_map, List.mem_range] at hb
    obtain ⟨k, _, rfl⟩ := hb
    have := List.length_take (min ((k + 1) * 400) ids.length - k * 400) (ids.drop (k * 400))
    have h2 : min ((k + 1) * 400) ids.length - k * 400 ≤ 400 := by omega
    omega

/-- C5 witness: 401 ids are cleared in two batches (400 + 1 ids), all
ids accounted for. -/
theorem clear_batching_witness :
    (clearBatches (List.range 401)).length = ((List.range 401).length + 399) / 400 ∧
    (∀ b ∈ clearBatches (List.range 401), b.length ≤ 400) ∧
    (clearBatches (List.range 401)).flatten = List.range 401 :=
  clear_batching (List.range 401) (by decide)


theorem tryBatch_cons (env : UploadEnv) (b a f : Nat) :
    tryBatch env b a (f + 1) =
      if env.cancel b = true then (.cancelled, [])
      else if env.addOk b a = true then (.ok, [a])
      else if f == 0 then (.failed, [a])
      else ((tryBatch env b (a + 1) f).1, a :: (tryBatch env b (a + 1) f).2) := rfl

/-- With cancellation unobserved and every attempt failing, the retry
loop ends `.failed` after making attempts `a, a+1, ...`. -/
theorem tryBatch_all_fail (env : UploadEnv) (b : Nat) (hc : env.cancel b = false) :
    ∀ f a, (∀ j, j < f → env.addOk b (a + j) = false) →
      tryBatch env b a f = (.failed, List.range' a f) := by
  intro f
  induction f with
  | zero => intro a _; rfl
  | succ f ih =>
    intro a hfail
    have h0 : env.addOk b a = false := by simpa using hfail 0 (Nat.succ_pos f)
    rw [tryBatch_cons, hc, h0]
    cases f with
    | zero => simp [List.range']
    | succ f2 =>
      have hrec := ih (a + 1) (fun j hj => by
        have := hfail (j + 1) (by omega)
        rwa [show a + 1 + j = a + (j + 1) by omega])
      simp [hrec, List.range']

/-- If cancellation is unobserved and some attempt within the budget
succeeds, the batch ends `.ok`. -/
theorem tryBatch_ok (env : UploadEnv) (b : Nat) (hc : env.cancel b = false) :
    ∀ f a, (∃ j, j < f ∧ env.addOk b (a + j) = true) →
      (tryBatch env b a f).1 = .ok := by
  intro f
  induction f with
  | zero =>
    intro a h
    obtain ⟨j, hj, _⟩ := h
    omega
  | succ f ih =>
    intro a h
    obtain ⟨j, hj, hok⟩ := h
    rw [tryBatch_cons, hc]
    by_cases h0 : env.addOk b a = true
    · simp [h0]
    · have hj0 : j ≠ 0 := by
        intro hh
        subst hh
        simp only [Nat.add_zero] at hok
        exact h0 hok
      cases f with
      | zero => omega
      | succ f2 =>
        have hrec := ih (a + 1) ⟨j - 1, by omega, by
          rwa [show a + 1 + (j - 1) = a + j by omega]⟩
        simp [h0, hrec]


theorem runUpload_cons (env : UploadEnv) (R : Nat) (colmap cols : List String)
    (b : Nat) (batch : List (List CellVal)) (rest : List (List (List CellVal))) :
    runUpload env R colmap cols b (batch :: rest) =
      if env.cancel b = true then ⟨false, [], [], 0⟩
      else
        match (tryBatch env b 0 R).1 with
        | .ok =>
          ⟨(runUpload env R colmap cols (b + 1) rest).success,
            prepBatch colmap cols batch ++ (runUpload env R colmap cols (b + 1) rest).remote,
            (tryBatch env b 0 R).2.map (fun a => (b, a)) ++
              (runUpload env R colmap cols (b + 1) rest).calls,
            (prepBatch colmap cols batch).length +
              (runUpload env R colmap cols (b + 1) rest).uploaded⟩
        | .failed => ⟨false, [], (tryBatch env b 0 R).2.map (fun a => (b, a)), 0⟩
        | .cancelled => ⟨false, [], (tryBatch env b 0 R).2.map (fun a => (b, a)), 0⟩ := rfl

/-- The failing-batch run, started from any batch index. -/
theorem runUpload_fail_aux (env : UploadEnv) (R : Nat) (colmap cols : List String)
    (hc : ∀ j, env.cancel j = false) :
    ∀ i b (batches : List (List (List CellVal))), i < batches.length →
      (∀ a, a < R → env.addOk (b + i) a = false) →
      (∀ i2, i2 < i → ∃ a, a < R ∧ env.addOk (b + i2) a = true) →
      (runUpload env R colmap cols b batches).success = false ∧
      (∀ p ∈ (runUpload env R colmap cols b batches).calls, p.1 ≤ b + i) ∧
      (runUpload env R colmap cols b batches).remote =
        ((batches.take i).map (prepBatch colmap cols)).flatten := by
  intro i
  induction i with
  | zero =>
    intro b batches hlen hfail _
    cases batches with
    | nil => simp at hlen
    | cons batch rest =>
      have ht : tryBatch env b 0 R = (.failed, List.range' 0 R) :=
        tryBatch_all_fail env b (hc b) R 0 (fun j hj => by simpa using hfail j hj)
      rw [runUpload_cons, hc b]
      simp only [Bool.false_eq_true, if_false, ht]
      refine ⟨by simp, ?_, by simp⟩
      intro p hp
      simp only [List.mem_map] at hp
      obtain ⟨a, _, rfl⟩ := hp
      omega
  | succ i ih =>
    intro b batches hlen hfail hok
    cases batches with
    | nil => simp at hlen
    | cons batch rest =>
      obtain ⟨a0, ha0, haok⟩ := hok 0 (Nat.succ_pos i)
      have ht : (tryBatch env b 0 R).1 = .ok := by
        refine tryBatch_ok env b (hc b) R 0 ⟨a0, ha0, ?_⟩
        simpa using haok
      have hrec := ih (b + 1) rest (by simpa using hlen)
        (fun a ha => by
          rw [show b + 1 + i = b + (i + 1) by omega]
          exact hfail a ha)
        (fun i2 hi2 => by
          rw [show b + 1 + i2 = b + (i2 + 1) by omega]
          exact hok (i2 + 1) (by omega))
      rw [runUpload_cons, hc b]
      simp only [Bool.false_eq_true, if_false, ht]
      refine ⟨hrec.1, ?_, ?_⟩
      · intro p hp
        simp only [List.mem_append, List.mem_map] at hp
        rcases hp with ⟨a, _, rfl⟩ | hp
        · omega
        · have := hrec.2.1 p hp
          omega
      · rw [hrec.2.2]
        simp [List.take_succ_cons]


/-- The cancelled run, started from any batch index: earlier batches
succeed, the flag turns true at relative index `k`. -/
theorem runUpload_cancel_aux (env : UploadEnv) (R : Nat) (colmap cols : List String) :
    ∀ k b (batches : List (List (List CellVal))), k < batches.length →
      (∀ b2, b2 < k → env.cancel (b + b2) = false) →
      env.cancel (b + k) = true →
      (∀ b2, b2 < k → ∃ a, a < R ∧ env.addOk (b + b2) a = true) →
      (runUpload env R colmap cols b batches).success = false ∧
      (∀ p ∈ (runUpload env R colmap cols b batches).calls, p.1 < b + k) ∧
      (runUpload env R colmap cols b batches).remote =
        ((batches.take k).map (prepBatch colmap cols)).flatten := by
  intro k
  induction k with
  | zero =>
    intro b batches hlen _ hck _
    cases batches with
    | nil => simp at hlen
    | cons batch rest =>
      rw [runUpload_cons]
      simp only [Nat.add_zero] at hck
      simp [hck]
  | succ k ih =>
    intro b batches hlen hcb hck hok
    cases batches with
    | nil => simp at hlen
    | cons batch rest =>
      have hc0 : env.cancel b = false := by simpa using hcb 0 (Nat.succ_pos k)
      obtain ⟨a0, ha0, haok⟩ := hok 0 (Nat.succ_pos k)
      have ht : (tryBatch env b 0 R).1 = .ok := by
        refine tryBatch_ok env b hc0 R 0 ⟨a0, ha0, ?_⟩
        simpa using haok
      have hrec := ih (b + 1) rest (by simpa using hlen)
        (fun b2 hb2 => by
          rw [show b + 1 + b2 = b + (b2 + 1) by omega]
          exact hcb (b2 + 1) (by omega))
        (by rw [show b + 1 + k = b + (k + 1) by omega]; exact hck)
        (fun b2 hb2 => by
          rw [show b + 1 + b2 = b + (b2 + 1) by omega]
          exact hok (b2 + 1) (by omega))
      rw [runUpload_cons, hc0]
      simp only [Bool.false_eq_true, if_false, ht]
      refine ⟨hrec.1, ?_, ?_⟩
      · intro p hp
        simp only [List.mem_append, List.mem_map] at hp
        rcases hp with ⟨a, _, rfl⟩ | hp
        · omega
        · have := hrec.2.1 p hp
          omega
      · rw [hrec.2.2]
        simp [List.take_succ_cons]

/-- C6: when every retry for batch `i` fails (and cancellation is never
requested, earlier batches succeeding), the outcome is `Failure`, no
call is issued for any batch after `i`, and the rows of the batches
before `i` remain on the remote side. -/
theorem upload_retry_exhaustion (env : UploadEnv) (R : Nat) (colmap cols : List String)
    (batches : List (List (List CellVal))) (i : Nat)
    (hi : i < batches.length)
    (hc : ∀ j, env.cancel j = false)
    (hfail : ∀ a, a < R → env.addOk i a = false)
    (hok : ∀ i2, i2 < i → ∃ a, a < R ∧ env.addOk i2 a = true) :
    runOutcome env R colmap cols batches = .failure ∧
    (∀ p ∈ (runUpload env R colmap cols 0 batches).calls, p.1 ≤ i) ∧
    (runUpload env R colmap cols 0 batches).remote =
      ((batches.take i).map (prepBatch colmap cols)).flatten := by
  have haux := runUpload_fail_aux env R colmap cols hc i 0 batches hi
    (by simpa using hfail) (by simpa using hok)
  refine ⟨?_, by simpa using haux.2.1, haux.2.2⟩
  unfold runOutcome
  simp [haux.1, hc]

/-- C7: when cancellation is observed at the checkpoint before batch `k`
(earlier batches succeeded with no cancellation), the outcome is
`Cancelled`, not `Failure`; no batch from `k` on is submitted, and the
rows of batches before `k` remain on the remote side. -/
theorem upload_cancellation (env : UploadEnv) (R : Nat) (colmap cols : List String)
    (batches : List (List (List CellVal))) (k : Nat)
    (hk : k < batches.length)
    (hmono : ∀ i j, i ≤ j → env.cancel i = true → env.cancel j = true)
    (hck : env.cancel k = true)
    (hcb : ∀ b, b < k → env.cancel b = false)
    (hok : ∀ b, b < k → ∃ a, a < R ∧ env.addOk b a = true) :
    runOutcome env R colmap cols batches = .cancelled ∧
    (∀ p ∈ (runUpload env R colmap cols 0 batches).calls, p.1 < k) ∧
    (runUpload env R colmap cols 0 batches).remote =
      ((batches.take k).map (prepBatch colmap cols)).flatten := by
  have haux := runUpload_cancel_aux env R colmap cols k 0 batches hk
    (by simpa using hcb) (by simpa using hck) (by simpa using hok)
  have hfin : env.cancel batches.length = true :=
    hmono k batches.length (Nat.le_of_lt hk) hck
  refine ⟨?_, by simpa using haux.2.1, haux.2.2⟩
  unfold runOutcome
  simp [haux.1, hfin]

/-- C6 witness: two batches, the second failing every one of 2 attempts:
failure outcome, no call past batch 1, batch 0's rows on the remote. -/
theorem upload_retry_exhaustion_witness :
    runOutcome envC6 2 ["ProductCode"] ["ProductCode"] [batchA, batchA] = .failure ∧
    (∀ p ∈ (runUpload envC6 2 ["ProductCode"] ["ProductCode"] 0 [batchA, batchA]).calls,
      p.1 ≤ 1) ∧
    (runUpload envC6 2 ["ProductCode"] ["ProductCode"] 0 [batchA, batchA]).remote =
      (([batchA, batchA].take 1).map (prepBatch ["ProductCode"] ["ProductCode"])).flatten :=
  upload_retry_exhaustion envC6 2 ["ProductCode"] ["ProductCode"] [batchA, batchA] 1
    (by decide) (fun j => rfl) (fun a _ => rfl)
    (fun i2 hi2 => by
      interval_cases i2
      exact ⟨0, by omega, rfl⟩)

/-- C7 witness: two batches, cancellation observed before batch 1:
cancelled outcome, no call past batch 0, batch 0's rows on the remote. -/
theorem upload_cancellation_witness :
    runOutcome envC7 2 ["ProductCode"] ["ProductCode"] [batchA, batchA] = .cancelled ∧
    (∀ p ∈ (runUpload envC7 2 ["ProductCode"] ["ProductCode"] 0 [batchA, batchA]).calls,
      p.1 < 1) ∧
    (runUpload envC7 2 ["ProductCode"] ["ProductCode"] 0 [batchA, batchA]).remote =
      (([batchA, batchA].take 1).map (prepBatch ["ProductCode"] ["ProductCode"])).flatten :=
  upload_cancellation envC7 2 ["ProductCode"] ["ProductCode"] [batchA, batchA] 1
    (by decide)
    (fun i j hij hi => by
      simp only [envC7, decide_eq_true_eq] at hi ⊢
      omega)
    (by decide)
    (fun b hb => by
      interval_cases b
      rfl)
    (fun b hb => ⟨0, by omega, rfl⟩)


/-! ## C8 — clearing retries -/

theorem deleteWithRetry_cons (delOk : Nat → Bool) (delay a f : Nat) :
    deleteWithRetry delOk delay a (f + 1) =
      if delOk a then (.ok, [a], [])
      else if f == 0 then (.raised, [a], [])
      else ((deleteWithRetry delOk delay (a + 1) f).1,
        a :: (deleteWithRetry delOk delay (a + 1) f).2.1,
        delay :: (deleteWithRetry delOk delay (a + 1) f).2.2) := rfl

/-- When every attempt fails, the delete retry loop raises after the
whole budget, having slept the fixed delay before each of the
`budget - 1` retries. -/
theorem deleteWithRetry_all_fail (delOk : Nat → Bool) (delay : Nat) :
    ∀ f a, 0 < f → (∀ j, j < f → delOk (a + j) = false) →
      deleteWithRetry delOk delay a f =
        (.raised, List.range' a f, List.replicate (f - 1) delay) := by
  intro f
  induction f with
  | zero => intro a h; omega
  | succ f ih =>
    intro a _ hfail
    have h0 : delOk a = false := by simpa using hfail 0 (Nat.succ_pos f)
    rw [deleteWithRetry_cons, h0]
    cases f with
    | zero => simp [List.range']
    | succ f2 =>
      have hrec := ih (a + 1) (Nat.succ_pos f2) (fun j hj => by
        have := hfail (j + 1) (by omega)
        rwa [show a + 1 + j = a + (j + 1) by omega])
      simp [hrec, List.range', List.replicate_succ]

/-- Every slept delay of the delete retry loop is the fixed
`retry_delay`. -/
theorem deleteWithRetry_delays_const (delOk : Nat → Bool) (delay : Nat) :
    ∀ f a, ∀ x ∈ (deleteWithRetry delOk delay a f).2.2, x = delay := by
  intro f
  induction f with
  | zero => intro a x hx; simp [deleteWithRetry] at hx
  | succ f ih =>
    intro a x hx
    rw [deleteWithRetry_cons] at hx
    by_cases h0 : delOk a
    · simp [h0] at hx
    · rcases f with _ | f2
      · simp [h0] at hx
      · simp only [h0, Bool.false_eq_true, if_false, Nat.succ_ne_zero, beq_iff_eq,
          List.mem_cons] at hx
        rcases hx with rfl | hx
        · rfl
        · exact ih (a + 1) x hx

/-- The delete retry loop makes at most `budget` calls. -/
theorem deleteWithRetry_calls_le (delOk : Nat → Bool) (delay : Nat) :
    ∀ f a, (deleteWithRetry delOk delay a f).2.1.length ≤ f := by
  intro f
  induction f with
  | zero => intro a; simp [deleteWithRetry]
  | succ f ih =>
    intro a
    rw [deleteWithRetry_cons]
    by_cases h0 : delOk a
    · simp [h0]
    · rcases f with _ | f2
      · simp [h0]
      · simp only [h0, Bool.false_eq_true, if_false, Nat.succ_ne_zero, beq_iff_eq,
          List.length_cons]
        have := ih (a + 1)
        omega

/-- If some attempt within a non-zero budget succeeds, the delete retry
loop ends without raising. -/
theorem deleteWithRetry_ok (delOk : Nat → Bool) (delay : Nat) :
    ∀ f a, (∃ j, j < f ∧ delOk (a + j) = true) →
      (deleteWithRetry delOk delay a f).1 = .ok := by
  intro f
  induction f with
  | zero =>
    intro a h
    obtain ⟨j, hj, _⟩ := h
    omega
  | succ f ih =>
    intro a h
    obtain ⟨j, hj, hok⟩ := h
    rw [deleteWithRetry_cons]
    by_cases h0 : delOk a
    · simp [h0]
    · have hj0 : j ≠ 0 := by
        intro hh
        subst hh
        simp only [Nat.add_zero] at hok
        exact h0 hok
      cases f with
      | zero => omega
      | succ f2 =>
        have hrec := ih (a + 1) ⟨j - 1, by omega, by
          rwa [show a + 1 + (j - 1) = a + j by omega]⟩
        simp [h0, hrec]

theorem clearLoop_cons (env : ClearEnv) (retries delay b : Nat)
    (batch : List Nat) (rest : List (List Nat)) :
    clearLoop env retries delay b (batch :: rest) =
      if env.cancel b = true then ⟨.ok, [], []⟩
      else
        match (deleteWithRetry (env.delOk b) delay 0 retries).1 with
        | .raised => ⟨.raised,
            (deleteWithRetry (env.delOk b) delay 0 retries).2.1.map (fun a => (b, a)),
            (deleteWithRetry (env.delOk b) delay 0 retries).2.2⟩
        | .ok => ⟨(clearLoop env retries delay (b + 1) rest).res,
            (deleteWithRetry (env.delOk b) delay 0 retries).2.1.map (fun a => (b, a)) ++
              (clearLoop env retries delay (b + 1) rest).calls,
            (deleteWithRetry (env.delOk b) delay 0 retries).2.2 ++
              (clearLoop env retries delay (b + 1) rest).delays⟩ := rfl

/-- A batch whose deletes all fail raises out of the clearing loop: the
whole phase aborts and no later batch is touched. -/
theorem clearLoop_abort_aux (env : ClearEnv) (R delay : Nat) (hR : 0 < R)
    (hc : ∀ i, env.cancel i = false) :
    ∀ j b (batches : List (List Nat)), j < batches.length →
      (∀ a, a < R → env.delOk (b + j) a = false) →
      (∀ j2, j2 < j → ∃ a, a < R ∧ env.delOk (b + j2) a = true) →
      (clearLoop env R delay b batches).res = .raised ∧
      (∀ p ∈ (clearLoop env R delay b batches).calls, p.1 ≤ b + j) := by
  intro j
  induction j with
  | zero =>
    intro b batches hlen hfail _
    cases batches with
    | nil => simp at hlen
    | cons batch rest =>
      have ht : deleteWithRetry (env.delOk b) delay 0 R =
          (.raised, List.range' 0 R, List.replicate (R - 1) delay) :=
        deleteWithRetry_all_fail (env.delOk b) delay R 0 hR
          (fun a ha => by simpa using hfail a ha)
      rw [clearLoop_cons, hc b]
      simp only [Bool.false_eq_true, if_false, ht]
      refine ⟨by simp, ?_⟩
      intro p hp
      simp only [List.mem_map] at hp
      obtain ⟨a, _, rfl⟩ := hp
      omega
  | succ j ih =>
    intro b batches hlen hfail hok
    cases batches with
    | nil => simp at hlen
    | cons batch rest =>
      obtain ⟨a0, ha0, haok⟩ := hok 0 (Nat.succ_pos j)
      have ht : (deleteWithRetry (env.delOk b) delay 0 R).1 = .ok := by
        refine deleteWithRetry_ok (env.delOk b) delay R 0 ⟨a0, ha0, ?_⟩
        simpa using haok
      have hrec := ih (b + 1) rest (by simpa using hlen)
        (fun a ha => by
          rw [show b + 1 + j = b + (j + 1) by omega]
          exact hfail a ha)
        (fun j2 hj2 => by
          rw [show b + 1 + j2 = b + (j2 + 1) by omega]
          exact hok (j2 + 1) (by omega))
      rw [clearLoop_cons, hc b]
      simp only [Bool.false_eq_true, if_false, ht]
      refine ⟨hrec.1, ?_⟩
      intro p hp
      simp only [List.mem_append, List.mem_map] at hp
      rcases hp with ⟨a, _, rfl⟩ | hp
      · omega
      · have := hrec.2 p hp
        omega

/-- C8 counterexample: with `retry_delay = 2` and a delete that fails
all 3 attempts, the slept delays are `[2, 2]` — a fixed delay — and not
the claim's linear backoff `[2 * 1, 2 * 2]`. -/
theorem clear_retry_counterexample :
    (deleteWithRetry (fun _ => false) 2 0 3).2.2 = [2, 2] ∧
    (deleteWithRetry (fun _ => false) 2 0 3).2.2 ≠ [2 * 1, 2 * 2] := by
  decide

/-- C8 (amended): each failing batch delete is retried up to the retry
budget with the fixed `retry_delay` slept before every retry (a constant
delay, not multiplied by the attempt number), and exhausting the budget
raises, aborting the whole clearing phase with no later batch touched. -/
theorem clear_retry_amended :
    (∀ (delOk : Nat → Bool) (delay f a : Nat),
      ∀ x ∈ (deleteWithRetry delOk delay a f).2.2, x = delay) ∧
    (∀ (delOk : Nat → Bool) (delay R : Nat),
      (deleteWithRetry delOk delay 0 R).2.1.length ≤ R) ∧
    (∀ (delOk : Nat → Bool) (delay R : Nat), 0 < R → (∀ a, a < R → delOk a = false) →
      deleteWithRetry delOk delay 0 R =
        (.raised, List.range' 0 R, List.replicate (R - 1) delay)) ∧
    (∀ (env : ClearEnv) (R delay j : Nat) (batches : List (List Nat)),
      0 < R → (∀ i, env.cancel i = false) → j < batches.length →
      (∀ a, a < R → env.delOk j a = false) →
      (∀ j2, j2 < j → ∃ a, a < R ∧ env.delOk j2 a = true) →
      (clearLoop env R delay 0 batches).res = .raised ∧
      (∀ p ∈ (clearLoop env R delay 0 batches).calls, p.1 ≤ j)) := by
  refine ⟨?_, ?_, ?_, ?_⟩
  · intro delOk delay f a
    exact deleteWithRetry_delays_const delOk delay f a
  · intro delOk delay R
    exact deleteWithRetry_calls_le delOk delay R 0
  · intro delOk delay R hR hfail
    exact deleteWithRetry_all_fail delOk delay R 0 hR (fun a ha => by simpa using hfail a ha)
  · intro env R delay j batches hR hc hlen hfail hok
    have := clearLoop_abort_aux env R delay hR hc j 0 batches hlen
      (by simpa using hfail) (by simpa using hok)
    exact ⟨this.1, fun p hp => by simpa using this.2 p hp⟩

/-- C8 witness: two delete batches, the second failing all 3 attempts:
the phase raises and no call is made past batch 1. -/
theorem clear_retry_witness :
    (clearLoop envC8 3 2 0 [[1], [2]]).res = .raised ∧
    (∀ p ∈ (clearLoop envC8 3 2 0 [[1], [2]]).calls, p.1 ≤ 1) :=
  clear_retry_amended.2.2.2 envC8 3 2 1 [[1], [2]] (by omega) (fun i => rfl)
    (by decide) (fun a _ => rfl)
    (fun j2 hj2 => by
      interval_cases j2
      exact ⟨0, by omega, rfl⟩)


/-! ## C9 — idempotence of numeric cleaning -/

/-- `takeWhile`/`dropWhile` split a list at a known boundary. -/
theorem takeWhile_dropWhile_split {p : Char → Bool} :
    ∀ (l1 l2 : List Char), (∀ x ∈ l1, p x = true) →
      (∀ c, l2.head? = some c → p c = false) →
      (l1 ++ l2).takeWhile p = l1 ∧ (l1 ++ l2).dropWhile p = l2 := by
  intro l1
  induction l1 with
  | nil =>
    intro l2 _ h2
    cases l2 with
    | nil => simp
    | cons c t =>
      have := h2 c rfl
      simp [List.takeWhile_cons, List.dropWhile_cons, this]
  | cons a t ih =>
    intro l2 h1 h2
    have ha : p a = true := h1 a (List.mem_cons_self a t)
    have iht := ih l2 (fun x hx => h1 x (List.mem_cons_of_mem a hx)) h2
    simp [List.takeWhile_cons, List.dropWhile_cons, ha, iht.1, iht.2]

/-- What a successful unsigned parse guarantees about its digits. -/
theorem parseUnsigned_digits {l ip fp : List Char}
    (h : parseUnsigned l = some (ip, fp)) :
    (∀ x ∈ ip, x.isDigit = true) ∧ (∀ x ∈ fp, x.isDigit = true) ∧ ¬(ip = [] ∧ fp = []) := by
  unfold parseUnsigned at h
  dsimp only at h
  split at h
  · split at h
    · exact absurd h (by simp)
    · rename_i hne
      simp only [Option.some.injEq, Prod.mk.injEq] at h
      obtain ⟨h1, h2⟩ := h
      subst h1
      subst h2
      refine ⟨fun x hx => List.mem_takeWhile_imp hx, by simp, ?_⟩
      rintro ⟨hip, -⟩
      rw [hip] at hne
      simp at hne
  · split at h
    · split at h
      · rename_i hcond
        simp only [Option.some.injEq, Prod.mk.injEq] at h
        obtain ⟨h1, h2⟩ := h
        subst h1
        subst h2
        refine ⟨fun x hx => List.mem_takeWhile_imp hx,
          fun x hx => List.mem_takeWhile_imp hx, ?_⟩
        rintro ⟨hip, hfp⟩
        rw [hip, hfp] at hcond
        simp at hcond
      · exact absurd h (by simp)
    · exact absurd h (by simp)


/-- Rendering sign and digit lists and reparsing recovers the parts. -/
theorem parseUnsigned_render {ip fp : List Char}
    (hip : ∀ x ∈ ip, x.isDigit = true) (hfp : ∀ x ∈ fp, x.isDigit = true)
    (hne : ¬(ip = [] ∧ fp = [])) :
    parseUnsigned (ip ++ (if fp.isEmpty then [] else '.' :: fp)) = some (ip, fp) := by
  by_cases hfpe : fp = []
  · subst hfpe
    have hipne : ip ≠ [] := fun hh => hne ⟨hh, rfl⟩
    have hsp := takeWhile_dropWhile_split ip [] hip (by simp)
    rw [List.append_nil] at hsp
    have hsuffix : (if ([] : List Char).isEmpty = true then ([] : List Char) else '.' :: [])
        = [] := rfl
    rw [hsuffix, List.append_nil]
    unfold parseUnsigned
    dsimp only
    rw [hsp.1, hsp.2]
    simp [hipne]
  · have hhead : ∀ c, ('.' :: fp).head? = some c → Char.isDigit c = false := by
      intro c hc
      simp only [List.head?_cons, Option.some.injEq] at hc
      subst hc
      decide
    have hsuffix : (if fp.isEmpty then ([] : List Char) else '.' :: fp) = '.' :: fp := by
      simp [hfpe]
    have hsp := takeWhile_dropWhile_split ip ('.' :: fp) hip hhead
    have hsp2 := takeWhile_dropWhile_split fp [] hfp (by simp)
    rw [List.append_nil] at hsp2
    rw [hsuffix]
    unfold parseUnsigned
    dsimp only
    rw [hsp.1, hsp.2]
    simp [hsp2.1, hsp2.2, hfpe]

/-- What a successful signed parse guarantees about its parts. -/
theorem parseDecCore_digits {l : List Char} {d : Dec} (h : parseDecCore l = some d) :
    (∀ x ∈ d.ip, x.isDigit = true) ∧ (∀ x ∈ d.fp, x.isDigit = true) ∧
      ¬(d.ip = [] ∧ d.fp = []) := by
  unfold parseDecCore at h
  split at h <;>
  · rw [Option.map_eq_some'] at h
    obtain ⟨⟨ip, fp⟩, hp, hd⟩ := h
    subst hd
    exact parseUnsigned_digits hp

/-- The characters of a plainly rendered `Dec`, as a list. -/
theorem renderDecPlain_toList (d : Dec) :
    (renderDecPlain d).toList =
      (if d.neg then ['-'] else []) ++ d.ip ++ (if d.fp.isEmpty then [] else '.' :: d.fp) := rfl

theorem renderDecPlain_toList_true (ip fp : List Char) :
    (renderDecPlain ⟨true, ip, fp⟩).toList
      = '-' :: (ip ++ (if fp.isEmpty then [] else '.' :: fp)) := rfl

theorem renderDecPlain_toList_false (ip fp : List Char) :
    (renderDecPlain ⟨false, ip, fp⟩).toList
      = ip ++ (if fp.isEmpty then [] else '.' :: fp) := rfl

/-- Outside the scientific regime the renderer is the plain one. -/
theorem renderDec_eq_plain {d : Dec} (h : inSciRegime d = false) :
    renderDec d = renderDecPlain d := by
  simp [renderDec, h]

/-- Reparsing a plainly rendered well-formed `Dec` recovers it
exactly. -/
theorem parseDecCore_render (d : Dec)
    (hip : ∀ x ∈ d.ip, x.isDigit = true) (hfp : ∀ x ∈ d.fp, x.isDigit = true)
    (hne : ¬(d.ip = [] ∧ d.fp = [])) :
    parseDecCore (renderDecPlain d).toList = some d := by
  obtain ⟨neg, ip, fp⟩ := d
  simp only at hip hfp hne
  cases neg with
  | true =>
    rw [renderDecPlain_toList_true]
    unfold parseDecCore
    have hcond : ('-' :: (ip ++ if fp.isEmpty then ([] : List Char) else '.' :: fp)).head?
        = some '-' := rfl
    rw [if_pos hcond]
    dsimp only [List.tail_cons]
    rw [parseUnsigned_render hip hfp hne]
    rfl
  | false =>
    rw [renderDecPlain_toList_false]
    have hh : (ip ++ (if fp.isEmpty then [] else '.' :: fp)).head? ≠ some '-' := by
      cases ip with
      | nil =>
        have hfpe : fp ≠ [] := fun hh => hne ⟨rfl, hh⟩
        simp [hfpe]
      | cons a t =>
        have ha := hip a (List.mem_cons_self a t)
        intro he
        simp only [List.cons_append, List.head?_cons, Option.some.injEq] at he
        subst he
        simp at ha
    unfold parseDecCore
    rw [if_neg hh]
    rw [parseUnsigned_render hip hfp hne]
    rfl

/-- The cleaning regexes keep every character of a plainly rendered
`Dec`. -/
theorem renderDecPlain_filter (d : Dec)
    (hip : ∀ x ∈ d.ip, x.isDigit = true) (hfp : ∀ x ∈ d.fp, x.isDigit = true) :
    (renderDecPlain d).toList.filter keepNumChar = (renderDecPlain d).toList := by
  apply List.filter_eq_self.mpr
  intro a ha
  rw [renderDecPlain_toList] at ha
  simp only [List.mem_append] at ha
  rcases ha with (ha | ha) | ha
  · have : a = '-' := by
      rcases d.neg with _ | _ <;> simp_all
    subst this
    decide
  · have := hip a ha
    simp [keepNumChar, this]
  · by_cases hfe : d.fp = []
    · rw [if_pos (by simpa using hfe)] at ha
      simp at ha
    · rw [if_neg (by simpa using hfe)] at ha
      rcases List.mem_cons.mp ha with rfl | ha2
      · decide
      · have := hfp a ha2
        simp [keepNumChar, this]

/-- A plainly rendered well-formed `Dec` is never the empty string. -/
theorem renderDecPlain_ne_nil (d : Dec) (hne : ¬(d.ip = [] ∧ d.fp = [])) :
    (renderDecPlain d).toList ≠ [] := by
  rw [renderDecPlain_toList]
  intro hcontra
  simp only [List.append_eq_nil] at hcontra
  obtain ⟨⟨-, hip⟩, hfp⟩ := hcontra
  apply hne
  refine ⟨hip, ?_⟩
  by_cases hf : d.fp = []
  · exact hf
  · rw [if_neg (by simpa using hf)] at hfp
    exact absurd hfp (by simp)

/-- Cleaning a cell that already holds a well-formed number whose
rendering is plain changes nothing. -/
theorem cleanCell_num (d : Dec) (hsci : inSciRegime d = false)
    (hip : ∀ x ∈ d.ip, x.isDigit = true) (hfp : ∀ x ∈ d.fp, x.isDigit = true)
    (hne : ¬(d.ip = [] ∧ d.fp = [])) :
    cleanCell (.num d) = .num d := by
  unfold cleanCell
  dsimp only [renderCell]
  rw [renderDec_eq_plain hsci]
  rw [renderDecPlain_filter d hip hfp]
  rw [if_neg (fun hh => renderDecPlain_ne_nil d hne (List.isEmpty_iff.mp hh))]
  rw [parseDecCore_render d hip hfp hne]
  rfl

/-- Cleaning a cell twice is the same as cleaning it once, provided the
cleaned value renders in plain notation. -/
theorem cleanCell_idem_plain (v : CellVal) (h : plainCell (cleanCell v) = true) :
    cleanCell (cleanCell v) = cleanCell v := by
  have hdef : cleanCell v = .num ((parseDecCore
      (if ((renderCell v).toList.filter keepNumChar).isEmpty then ['0']
       else (renderCell v).toList.filter keepNumChar)).getD zeroDec) := rfl
  cases hp : parseDecCore
      (if ((renderCell v).toList.filter keepNumChar).isEmpty then ['0']
       else (renderCell v).toList.filter keepNumChar) with
  | none =>
    rw [hdef, hp]
    decide
  | some d =>
    obtain ⟨hip, hfp, hne⟩ := parseDecCore_digits hp
    have hsci : inSciRegime d = false := by
      rw [hdef, hp] at h
      simpa [plainCell] using h
    rw [hdef, hp]
    simp only [Option.getD_some]
    exact cleanCell_num d hsci hip hfp hne

/-- Cleaning a row twice is the same as cleaning it once, provided
every cleaned cell of the row renders in plain notation. -/
theorem cleanRow_idem_plain (cols : List String) (r : List CellVal)
    (hall : ∀ v ∈ cleanRow cols r, plainCell v = true) :
    cleanRow cols (cleanRow cols r) = cleanRow cols r := by
  unfold cleanRow at hall ⊢
  induction cols generalizing r with
  | nil => simp
  | cons c cs ih =>
    cases r with
    | nil => simp
    | cons v vs =>
      simp only [List.zipWith_cons_cons] at hall ⊢
      have hhead := hall _ (List.mem_cons_self _ _)
      refine List.cons_eq_cons.mpr ⟨?_, ih vs (fun v hv => hall v (List.mem_cons_of_mem _ hv))⟩
      by_cases h : isNumericSemantic c
      · rw [if_pos h] at hhead ⊢
        rw [if_pos h]
        exact cleanCell_idem_plain v hhead
      · simp [h]

/-- C9 counterexample: the pass is not idempotent.  Cleaning
`"0.00001"` stores the float `1e-05`; `astype(str)` renders it in
scientific notation as `"1e-05"`, which the second pass's regexes
mangle to `"1-05"`; that fails to parse and becomes 0, so cleaning a
cleaned column is not a no-op (shown cell-wise and on a whole frame). -/
theorem numeric_coercion_counterexample :
    cleanCell (.str "0.00001") = .num ⟨false, ['0'], ['0', '0', '0', '0', '1']⟩ ∧
    renderDec ⟨false, ['0'], ['0', '0', '0', '0', '1']⟩ = "1e-05" ∧
    cleanCell (cleanCell (.str "0.00001")) = .num zeroDec ∧
    cleanCell (cleanCell (.str "0.00001")) ≠ cleanCell (.str "0.00001") ∧
    clean_numeric_data (clean_numeric_data ⟨["SOH"], [[.str "0.00001"]]⟩) ≠
      clean_numeric_data ⟨["SOH"], [[.str "0.00001"]]⟩ := by
  decide

/-- C9 (amended): numeric cleaning is total and per-column isolated
(shape preserved, each cell's result depends only on its own column,
a failed parse substitutes 0 locally instead of raising), and it is
idempotent on every cell whose cleaned value renders in plain decimal
notation — zero, or magnitude in `[1e-4, 1e16)`.  Cleaned values in
float64's scientific-notation regime are mangled by the second pass's
regexes, so idempotence does not hold in general. -/
theorem numeric_coercion_amended :
    (∀ df, (∀ r ∈ df.rows, ∀ v ∈ cleanRow df.cols r, plainCell v = true) →
      clean_numeric_data (clean_numeric_data df) = clean_numeric_data df) ∧
    (∀ v, plainCell (cleanCell v) = true → cleanCell (cleanCell v) = cleanCell v) ∧
    (∀ df, (clean_numeric_data df).cols = df.cols ∧
      (clean_numeric_data df).rows.length = df.rows.length) ∧
    (∀ (cols : List String) (r : List CellVal) (i : Nat) (c : String) (v : CellVal),
      cols[i]? = some c → r[i]? = some v →
      (cleanRow cols r)[i]? = some (if isNumericSemantic c then cleanCell v else v)) := by
  refine ⟨?_, ?_, ?_, ?_⟩
  · intro df hall
    unfold clean_numeric_data
    simp only [List.map_map, DataFrame.mk.injEq, true_and]
    apply List.map_congr_left
    intro r hr
    exact cleanRow_idem_plain df.cols r (hall r hr)
  · exact cleanCell_idem_plain
  · intro df
    exact ⟨rfl, by simp [clean_numeric_data]⟩
  · intro cols r i c v hc hv
    unfold cleanRow
    have hz := @List.getElem?_zipWith String CellVal CellVal cols r
      (fun c v => if isNumericSemantic c then cleanCell v else v) i
    rw [hz, hc, hv]

/-- C9 witness: a plain-regime value (`"$1,200.50"` cleans to 1200.50)
is a fixed point of a second cleaning. -/
theorem numeric_coercion_witness :
    cleanCell (cleanCell (.str "$1,200.50")) = cleanCell (.str "$1,200.50") :=
  numeric_coercion_amended.2.1 (.str "$1,200.50") (by decide)


/-! ## C10 — row skipping in the upload -/

/-- C10: a table row contributes a remote row iff at least one of its
cells qualifies (its column is in the remote schema, its stripped value
is non-empty and not `"nan"`); the cumulative uploaded-row counter
counts exactly the contributed rows (those now remote); and on a
concrete table the reported total is strictly below the row count. -/
theorem upload_row_skipping :
    (∀ (colmap cols : List String) (r : List CellVal),
      ((prepRow colmap cols r).isEmpty = false ↔
        ∃ cv ∈ cols.zip r, cellQualifies colmap cv.1 cv.2 = true)) ∧
    (∀ (env : UploadEnv) (R : Nat) (colmap cols : List String) (b : Nat)
      (batches : List (List (List CellVal))),
      (runUpload env R colmap cols b batches).uploaded =
        (runUpload env R colmap cols b batches).remote.length) ∧
    ((upload_data_enhanced envAllOk 3 20 ["ProductCode"] dfSkip).uploaded <
      dfSkip.rows.length) := by
  refine ⟨?_, ?_, ?_⟩
  · intro colmap cols r
    unfold prepRow
    constructor
    · intro h
      by_contra hno
      push_neg at hno
      have hnil : (cols.zip r).filterMap (fun cv =>
          if cellQualifies colmap cv.1 cv.2 then some (cv.1, prepCell cv.1 cv.2)
          else none) = [] := by
        apply List.filterMap_eq_nil_iff.mpr
        intro cv hcv
        rw [if_neg]
        simpa using hno cv hcv
      rw [hnil] at h
      simp at h
    · rintro ⟨cv, hcv, hq⟩
      by_contra hcontra
      have hemp : ((cols.zip r).filterMap (fun cv =>
          if cellQualifies colmap cv.1 cv.2 then some (cv.1, prepCell cv.1 cv.2)
          else none)).isEmpty = true := by
        cases hb : ((cols.zip r).filterMap (fun cv =>
            if cellQualifies colmap cv.1 cv.2 then some (cv.1, prepCell cv.1 cv.2)
            else none)).isEmpty
        · exact absurd hb hcontra
        · rfl
      have := List.filterMap_eq_nil_iff.mp (List.isEmpty_iff.mp hemp) cv hcv
      rw [if_pos hq] at this
      exact absurd this (by simp)
  · intro env R colmap cols b batches
    induction batches generalizing b with
    | nil => rfl
    | cons batch rest ih =>
      rw [runUpload_cons]
      by_cases hcb : env.cancel b = true
      · rw [if_pos hcb]
        rfl
      · rw [if_neg hcb]
        cases ht : (tryBatch env b 0 R).1 with
        | ok =>
          dsimp only
          rw [List.length_append, ih (b + 1)]
        | failed => rfl
        | cancelled => rfl
  · decide

/-- C10 witness: a row with a qualifying cell contributes a remote
row. -/
theorem upload_row_skipping_witness :
    (prepRow ["ProductCode"] ["ProductCode"] [CellVal.str "A"]).isEmpty = false :=
  (upload_row_skipping.1 ["ProductCode"] ["ProductCode"] [CellVal.str "A"]).mpr
    ⟨("ProductCode", CellVal.str "A"), by decide, by decide⟩

end Cin7
